import Mathlib

/-!
Verification of the ProPoSal proposal-management core against its
specification.  The definitions below are a shallow embedding of the
TypeScript source (src/App.tsx and src/services/geminiService.ts):

* pure functions become Lean functions;
* React state updates become explicit state passing on `AppState`;
* `new Date().toISOString()` / `Date.now()` become explicit timestamp
  parameters (a `String` where the code stores an ISO string, a `Nat`
  for the millisecond value used in sort comparisons);
* the asynchronous Gemini call in `handleAIAnalyze` is split into a
  start step (capturing the `(title, content)` pair the awaited call
  closes over) and a resolve step (everything after the `await`);
* the network/JSON layer of `analyzeProposal` is abstracted as an
  environment supplying the outcome of the external call and of JSON
  parsing; the function body around it is translated faithfully.
-/

namespace ProPoSal

/-- `Signature` from src/App.tsx (lines 14-18). -/
structure Signature where
  userId : String
  userName : String
  timestamp : String
deriving DecidableEq, Repr

/-- `Proposal` from src/App.tsx (lines 20-29).  `status` is one of the four
string literals of the TS union type; `timestamp` is the millisecond value
of the stored ISO string (`new Date(s).getTime()`), which is what the sort
comparator consumes. -/
structure Proposal where
  id : Nat
  title : String
  content : String
  category : String
  status : String
  adminResponse : String
  timestamp : Nat
  signatures : List Signature
deriving DecidableEq, Repr

/-- The fragment of `User` (src/App.tsx lines 6-12) used by the store
operations: `toggleSignature` reads `user.id` and `user.name`. -/
structure User where
  id : String
  name : String
deriving DecidableEq, Repr

/-- The four status literals, `STATUS_STEPS` in src/App.tsx line 40. -/
def STATUS_STEPS : List String := ["受付中", "検討中", "先生と調整中", "対応済"]

/-- The toggle branch of `toggleSignature` (src/App.tsx lines 326-335) on a
single proposal's signature list: `findIndex` on `userId`, `splice` out one
entry when found, append a fresh signature otherwise.  `ts` stands for
`new Date().toISOString()`. -/
def toggleSigs (sigs : List Signature) (u : User) (ts : String) : List Signature :=
  match sigs.findIdx? (fun s => s.userId = u.id) with
  | some i => sigs.eraseIdx i
  | none => sigs ++ [⟨u.id, u.name, ts⟩]

/-- `toggleSignature` (src/App.tsx lines 316-341), logged-in path: maps over
the collection, toggling the signature list of the proposal with the given
id and leaving every other proposal untouched. -/
def toggleSignature (ps : List Proposal) (proposalId : Nat) (u : User) (ts : String) :
    List Proposal :=
  ps.map fun p =>
    if p.id = proposalId then { p with signatures := toggleSigs p.signatures u ts } else p

/-- `updateAdminStatus` (src/App.tsx lines 343-352): replaces `status` and
`adminResponse` on the proposal with the given id, leaves the rest alone. -/
def updateAdminStatus (ps : List Proposal) (proposalId : Nat) (newStatus : String)
    (response : String) : List Proposal :=
  ps.map fun p =>
    if p.id = proposalId then { p with status := newStatus, adminResponse := response } else p

/-- The id computation of `handlePostSubmit` (src/App.tsx line 242):
`proposals.length > 0 ? Math.max(...proposals.map(p => p.id)) + 1 : 1`. -/
def newId (ps : List Proposal) : Nat :=
  if ps.length > 0 then (ps.map Proposal.id).foldr max 0 + 1 else 1

/-! ### Moderation Client (src/services/geminiService.ts) -/

/-- `AIAnalysisResult` from src/services/geminiService.ts (lines 6-13). -/
structure AIAnalysisResult where
  isAppropriate : Bool
  category : String
  tags : List String
  refinedTitle : Option String := none
  refinedContent : Option String := none
  advice : Option String := none
deriving DecidableEq, Repr

/-- The catch-branch result of `analyzeProposal`
(src/services/geminiService.ts lines 113-121). -/
def fallbackResult : AIAnalysisResult :=
  { isAppropriate := false
    category := "その他"
    tags := []
    advice := some "AIチェック機能に一時的な不具合が発生しています。時間をおいて再度お試しください。" }

/-- Abstraction of the external layer of `analyzeProposal`: `call` is the
outcome of `ai.models.generateContent` followed by reading `response.text`
(`Except` error = the promise rejected in transport, `none` = the
`text` property was `undefined`), `parse` is `JSON.parse` into the result
shape (`none` = it threw). -/
structure ModerationEnv where
  call : String → String → Except String (Option String)
  parse : String → Option AIAnalysisResult

/-- `analyzeProposal` (src/services/geminiService.ts lines 34-122): runs the
external call; a transport error, a falsy `response.text` (absent or the
empty string, both rejected by `if (!text) throw`) or a `JSON.parse` failure
lands in the catch branch, which returns `fallbackResult`. -/
def analyzeProposal (env : ModerationEnv) (title content : String) : AIAnalysisResult :=
  match env.call title content with
  | .error _ => fallbackResult
  | .ok none => fallbackResult
  | .ok (some text) =>
    if text = "" then fallbackResult
    else
      match env.parse text with
      | none => fallbackResult
      | some result => result

/-! ### Submission Gate (src/App.tsx) -/

/-- The `postForm` state (src/App.tsx line 86). -/
structure PostForm where
  title : String
  content : String
  category : String
deriving DecidableEq, Repr

/-- The `aiAnalysis` state (src/App.tsx lines 89-94). -/
structure AiAnalysisState where
  advice : String
  loading : Bool
  detectedCategory : Option String := none
  detectedTags : Option (List String) := none
deriving DecidableEq, Repr

/-- The slice of the component state the submission pipeline touches.
`pending` records the `(title, content)` pair a started check closed over
(the arguments of the awaited `analyzeProposal` call); it is `none` when no
check is in flight. -/
structure AppState where
  proposals : List Proposal
  postForm : PostForm
  aiAnalysis : Option AiAnalysisState
  isAIApproved : Bool
  pending : Option (String × String)
deriving DecidableEq, Repr

/-- The three editable draft fields. -/
inductive PostField where
  | title
  | content
  | category
deriving DecidableEq, Repr

/-- Field update of `setPostForm(prev => ({ ...prev, [field]: value }))`. -/
def PostForm.set (f : PostForm) : PostField → String → PostForm
  | .title, v => { f with title := v }
  | .content, v => { f with content := v }
  | .category, v => { f with category := v }

/-- `handleInputChange` (src/App.tsx lines 228-233): updates one draft field,
resets `isAIApproved` to false and clears `aiAnalysis`. -/
def handleInputChange (s : AppState) (field : PostField) (value : String) : AppState :=
  { s with postForm := s.postForm.set field value
           isAIApproved := false
           aiAnalysis := none }

/-- JavaScript `a || b` on an optional string: falsy (`undefined` or `""`)
falls through to the default. -/
def strOrElse (o : Option String) (d : String) : String :=
  match o with
  | some s => if s = "" then d else s
  | none => d

/-- The `finalCategory` expression of `handlePostSubmit` (src/App.tsx line
240): `postForm.category || aiAnalysis?.detectedCategory || "その他"`. -/
def finalCategory (s : AppState) : String :=
  if s.postForm.category = "" then strOrElse (s.aiAnalysis.bind (·.detectedCategory)) "その他"
  else s.postForm.category

/-- The `newProposal` object of `handlePostSubmit` (src/App.tsx lines
243-252); `now` stands for `new Date().toISOString()`. -/
def newProposalOf (s : AppState) (now : Nat) : Proposal :=
  { id := newId s.proposals
    title := s.postForm.title
    content := s.postForm.content
    category := finalCategory s
    status := "受付中"
    adminResponse := ""
    timestamp := now
    signatures := [] }

/-- `handlePostSubmit` (src/App.tsx lines 235-260): guarded by
`if (!isAIApproved) return;`; on success prepends the new proposal, resets
the form, the analysis and the approval flag. -/
def handlePostSubmit (s : AppState) (now : Nat) : AppState :=
  if s.isAIApproved then
    { s with proposals := newProposalOf s now :: s.proposals
             postForm := ⟨"", "", ""⟩
             aiAnalysis := none
             isAIApproved := false }
  else s

/-- The synchronous prefix of `handleAIAnalyze` (src/App.tsx lines 262-268),
up to and including issuing the awaited call: validation rejects an empty
title or content with no external call; otherwise the loading state is shown,
approval is cleared, and the call captures the current `(title, content)`. -/
def handleAIAnalyzeStart (s : AppState) : AppState :=
  if s.postForm.title = "" ∨ s.postForm.content = "" then s
  else
    { s with aiAnalysis := some { advice := "", loading := true }
             isAIApproved := false
             pending := some (s.postForm.title, s.postForm.content) }

/-- The default advice texts of `handleAIAnalyze` (src/App.tsx lines
273-278): `displayAdvice = result.advice || (isAppropriate ? ... : ...)`. -/
def displayAdvice (result : AIAnalysisResult) : String :=
  strOrElse result.advice
    (if result.isAppropriate then "チェックが完了しました。問題ありません。"
     else "内容に修正が必要な点が見つかりました。ガイドラインに沿って見直してください。")

/-- The continuation of `handleAIAnalyze` after the `await` (src/App.tsx
lines 273-296): stores the analysis, sets `isAIApproved` to the verdict's
flag, and on approval overwrites the draft with the refined fields.  It runs
against whatever the live state is when the promise resolves. -/
def handleAIAnalyzeResolve (s : AppState) (result : AIAnalysisResult) : AppState :=
  { s with aiAnalysis := some { advice := displayAdvice result
                                loading := false
                                detectedCategory := some result.category
                                detectedTags := some result.tags }
           isAIApproved := result.isAppropriate
           postForm :=
             if result.isAppropriate then
               { title := strOrElse result.refinedTitle s.postForm.title
                 content := strOrElse result.refinedContent s.postForm.content
                 category := result.category }
             else s.postForm
           pending := none }

/-! ### View Engine (src/App.tsx lines 354-381) -/

/-- The JavaScript `\s` character class (ECMA-262 WhiteSpace and
LineTerminator code points), as matched by the regex in `trendingTags`. -/
def isJsSpace (c : Char) : Bool :=
  c = ' ' || c = '\t' || c = '\n' || c.val = 11 || c.val = 12 || c = '\r' ||
  c.val = 0xa0 || c.val = 0x1680 || (0x2000 ≤ c.val && c.val ≤ 0x200a) ||
  c.val = 0x2028 || c.val = 0x2029 || c.val = 0x202f || c.val = 0x205f ||
  c.val = 0x3000 || c.val = 0xfeff

/-- The `[#＃]` alternative of the tag regex. -/
def tagMarker (c : Char) : Bool :=
  c = '#' || c = '＃'

/-- A character admitted by the `[^\s　]` class of the tag regex (the
full-width space U+3000 is listed twice in the source pattern). -/
def tagBodyChar (c : Char) : Bool :=
  !(isJsSpace c || c = '　')

/-- Global matching of `/([#＃][^\s　]+)/g` over a character list, as
`String.prototype.match` performs it: at each position a match needs a
marker followed by a maximal non-empty run of non-space characters; the scan
resumes after a match, or one character further on failure.  The `Nat`
argument is structural-recursion fuel; every call site passes at least the
list length, and each step consumes at least one character, so the fuel
never runs out. -/
def tagTokens : Nat → List Char → List String
  | 0, _ => []
  | _, [] => []
  | fuel + 1, c :: rest =>
    if tagMarker c then
      let run := rest.takeWhile tagBodyChar
      if run.isEmpty then tagTokens fuel rest
      else String.mk (c :: run) :: tagTokens fuel (rest.drop run.length)
    else tagTokens fuel rest

/-- `p.content.match(/([#＃][^\s　]+)/g)` of src/App.tsx line 375 (the
`null` result of a match-less string becomes the empty list, over which the
`forEach` does nothing). -/
def extractTags (s : String) : List String :=
  tagTokens s.data.length s.data

/-- `counts[t] = (counts[t] || 0) + 1` on an association list that keeps the
JavaScript object's string-key insertion order. -/
def bump : List (String × Nat) → String → List (String × Nat)
  | [], t => [(t, 1)]
  | (k, n) :: rest, t => if k = t then (k, n + 1) :: rest else (k, n) :: bump rest t

/-- The count accumulation of `trendingTags` (src/App.tsx lines 373-379):
proposals scanned in collection order, each content's matches counted in
first-seen key order. -/
def tagCounts (ps : List Proposal) : List (String × Nat) :=
  ps.foldl (fun acc p => (extractTags p.content).foldl bump acc) []

/-- `trendingTags` (src/App.tsx lines 372-381):
`Object.entries(counts).sort((a, b) => b[1] - a[1]).slice(0, 5)`.
`Object.entries` yields insertion order for these non-index string keys and
`Array.prototype.sort` is stable (ES2019), modelled by a stable merge sort
on the comparator's weak order. -/
def trendingTags (ps : List Proposal) : List (String × Nat) :=
  ((tagCounts ps).mergeSort (fun a b => decide (b.2 ≤ a.2))).take 5

/-- The two sort orders of src/App.tsx line 73 (`'newest' | 'signatures'`). -/
inductive SortOrder where
  | newest
  | signatures
deriving DecidableEq, Repr

/-- The sort stage of `filteredProposals` (src/App.tsx lines 364-368),
applied after the category/search filters: `newest` sorts by
`new Date(b.timestamp).getTime() - new Date(a.timestamp).getTime()`,
`signatures` by `b.signatures.length - a.signatures.length`; both are stable
(ES2019 `Array.prototype.sort`), modelled by a stable merge sort. -/
def sortProposals (order : SortOrder) (ps : List Proposal) : List Proposal :=
  match order with
  | .newest => ps.mergeSort (fun a b => decide (b.timestamp ≤ a.timestamp))
  | .signatures => ps.mergeSort (fun a b => decide (b.signatures.length ≤ a.signatures.length))

/-! ### Seed data and reachable collections -/

/-- The seed collection written on first run (src/App.tsx lines 105-136),
with the `new Date(...)` timestamps as parameters. -/
def seedProposals (t1 t2 t3 : Nat) (sigTs : String) : List Proposal :=
  [ { id := 1
      title := "靴下の色にグレーを追加して欲しい"
      content := "靴下の色は黒・白・紺のみですが、友達の学校ではグレーも良いそうです。なぜグレーがダメなのかわかりません。グレーの追加をお願いします。 #靴下"
      category := "校則"
      status := "先生と調整中"
      adminResponse := "生徒総会での議論を経て、職員会議に提案中です。"
      timestamp := t1
      signatures := [] },
    { id := 2
      title := "食堂のメニューに麺類を追加してほしい"
      content := "今はパンとおにぎりしかありません。温かい麺類（うどんやラーメン）が食べたいです。 #食堂 #ランチ #改善希望"
      category := "設備・環境"
      status := "受付中"
      adminResponse := ""
      timestamp := t2
      signatures := [⟨"demo", "デモ太郎", sigTs⟩] },
    { id := 3
      title := "図書室の開館時間を延長してください"
      content := "放課後、部活の前にもう少し勉強したいのですが、すぐに閉まってしまいます。あと30分延長できませんか？"
      category := "設備・環境"
      status := "対応済"
      adminResponse := "試験期間中のみ、18:00まで延長することが決定しました。"
      timestamp := t3
      signatures := [] } ]

/-- Proposal collections producible by the store: the empty collection, the
seed collection, and the closure under the three mutating operations
(`handlePostSubmit`, `toggleSignature`, `updateAdminStatus`). -/
inductive Reachable : List Proposal → Prop where
  | empty : Reachable []
  | seeds (t1 t2 t3 : Nat) (sigTs : String) : Reachable (seedProposals t1 t2 t3 sigTs)
  | create (s : AppState) (now : Nat) :
      Reachable s.proposals → Reachable (handlePostSubmit s now).proposals
  | toggle (ps : List Proposal) (pid : Nat) (u : User) (ts : String) :
      Reachable ps → Reachable (toggleSignature ps pid u ts)
  | setStatus (ps : List Proposal) (pid : Nat) (st resp : String) :
      Reachable ps → Reachable (updateAdminStatus ps pid st resp)

/-- The endorsement uniqueness invariant: no proposal holds two signatures
with the same `userId`. -/
def SigInvariant (ps : List Proposal) : Prop :=
  ∀ p ∈ ps, (p.signatures.map Signature.userId).Nodup

/-! ### Gate operation sequences (for the invalidation property) -/

/-- The gate-side operations that do not resolve a moderation check:
editing a draft field, attempting to confirm-submit, and starting a new
check (whose resolution is a separate `handleAIAnalyzeResolve` event). -/
inductive GateOp where
  | edit (field : PostField) (value : String)
  | submit (now : Nat)
  | check
deriving DecidableEq, Repr

/-- One gate operation. -/
def applyGateOp (s : AppState) : GateOp → AppState
  | .edit f v => handleInputChange s f v
  | .submit now => handlePostSubmit s now
  | .check => handleAIAnalyzeStart s

/-- A sequence of gate operations, left to right. -/
def runGateOps (s : AppState) : List GateOp → AppState
  | [] => s
  | op :: rest => runGateOps (applyGateOp s op) rest

/-! ### Concrete sample data used to instantiate the theorems -/

/-- A signature by user `alice`. -/
def sampleSigA : Signature := ⟨"alice", "Alice", "t0"⟩

/-- A signature by user `bob`. -/
def sampleSigB : Signature := ⟨"bob", "Bob", "t0"⟩

/-- The logged-in user `alice`. -/
def sampleUserA : User := ⟨"alice", "Alice"⟩

/-- A one-proposal collection whose proposal is endorsed by `alice` (first)
and `bob` (second). -/
def samplePs : List Proposal :=
  [{ id := 1
     title := "T1"
     content := "C1"
     category := "校則"
     status := "受付中"
     adminResponse := ""
     timestamp := 10
     signatures := [sampleSigA, sampleSigB] }]

/-- A gate state holding an approved draft over `samplePs`. -/
def sampleApprovedState : AppState :=
  { proposals := samplePs
    postForm := ⟨"T", "C", ""⟩
    aiAnalysis := none
    isAIApproved := true
    pending := none }

/-- A gate state with a complete draft and no verdict yet. -/
def sampleComposingState : AppState :=
  { proposals := []
    postForm := ⟨"T", "C", ""⟩
    aiAnalysis := none
    isAIApproved := false
    pending := none }

/-- An approving moderation verdict. -/
def sampleOkResult : AIAnalysisResult :=
  { isAppropriate := true
    category := "授業"
    tags := ["#授業"]
    advice := some "良い提案です。" }

/-- A moderation environment whose external call always fails in transport
and whose JSON parse always fails. -/
def sampleFailEnv : ModerationEnv :=
  { call := fun _ _ => .error "network error", parse := fun _ => none }

/-- The state reached from `sampleComposingState` by starting a check and
then editing the content while that check is in flight. -/
def staleVerdictState : AppState :=
  handleInputChange (handleAIAnalyzeStart sampleComposingState) PostField.content "C2"

/-- A proposal whose content is the first tag example of the spec. -/
def sampleTagged1 : Proposal :=
  { id := 1
    title := "T1"
    content := "#a #a #b"
    category := "その他"
    status := "受付中"
    adminResponse := ""
    timestamp := 1
    signatures := [] }

/-- A proposal whose content is the second tag example of the spec. -/
def sampleTagged2 : Proposal :=
  { id := 2
    title := "T2"
    content := "#a #c"
    category := "その他"
    status := "受付中"
    adminResponse := ""
    timestamp := 2
    signatures := [] }

/-! ### Helper lemmas -/

/-- `findIndex`/`splice` phrased through `List.eraseP`: the toggle removes
the first matching signature when one exists, appends otherwise. -/
theorem toggleSigs_eq (sigs : List Signature) (u : User) (ts : String) :
    toggleSigs sigs u ts =
      if sigs.any (fun s => s.userId = u.id) then sigs.eraseP (fun s => s.userId = u.id)
      else sigs ++ [⟨u.id, u.name, ts⟩] := by
  induction sigs with
  | nil => rfl
  | cons a l ih =>
    by_cases h : a.userId = u.id
    · simp [toggleSigs, h]
    · rw [toggleSigs, List.findIdx?_cons]
      simp only [decide_eq_false h, Bool.false_eq_true, if_false, List.findIdx?_succ]
      cases hfi : l.findIdx? (fun s => decide (s.userId = u.id)) with
      | none =>
        have hall := List.findIdx?_eq_none_iff.mp hfi
        have hany : l.any (fun s => decide (s.userId = u.id)) = false := by
          cases hb : l.any (fun s => decide (s.userId = u.id)) with
          | false => rfl
          | true =>
            obtain ⟨s, hs, hps⟩ := List.any_eq_true.mp hb
            exact absurd hps (by simpa using hall s hs)
        simp [h, hany]
      | some j =>
        have hl : toggleSigs l u ts = l.eraseIdx j := by
          rw [toggleSigs, hfi]
        have hany : l.any (fun s => decide (s.userId = u.id)) = true := by
          cases hb : l.any (fun s => decide (s.userId = u.id)) with
          | true => rfl
          | false =>
            exfalso
            have hall : ∀ s ∈ l, ¬(decide (s.userId = u.id) = true) := by
              intro s hs hps
              have hx : l.any (fun s => decide (s.userId = u.id)) = true :=
                List.any_eq_true.mpr ⟨s, hs, hps⟩
              rw [hb] at hx
              cases hx
            have hnone : l.findIdx? (fun s => decide (s.userId = u.id)) = none :=
              List.findIdx?_eq_none_iff.mpr (by intro s hs; simpa using hall s hs)
            rw [hnone] at hfi
            cases hfi
        rw [ih, hany, if_pos rfl] at hl
        simp [h, hany, ← hl]

/-- When the user has not signed, the toggle appends a fresh signature. -/
theorem toggleSigs_of_not_mem (sigs : List Signature) (u : User) (ts : String)
    (h : u.id ∉ sigs.map Signature.userId) :
    toggleSigs sigs u ts = sigs ++ [⟨u.id, u.name, ts⟩] := by
  rw [toggleSigs_eq]
  have : sigs.any (fun s => s.userId = u.id) = false := by
    simp only [List.any_eq_false]
    intro s hs heq
    exact h (List.mem_map.mpr ⟨s, hs, by simpa using heq⟩)
  simp [this]

/-- Toggling twice from an unsigned state restores the signature list
exactly: the appended signature is the unique match and is removed again. -/
theorem toggleSigs_twice_of_not_mem (sigs : List Signature) (u : User) (ts1 ts2 : String)
    (h : u.id ∉ sigs.map Signature.userId) :
    toggleSigs (toggleSigs sigs u ts1) u ts2 = sigs := by
  rw [toggleSigs_of_not_mem sigs u ts1 h, toggleSigs_eq]
  have hnot : ∀ b ∈ sigs, ¬((fun s => decide (s.userId = u.id)) b = true) := by
    intro b hb heq
    exact h (List.mem_map.mpr ⟨b, hb, by simpa using heq⟩)
  have hany : (sigs ++ [(⟨u.id, u.name, ts1⟩ : Signature)]).any
      (fun s => s.userId = u.id) = true := by
    simp [List.any_append]
  rw [if_pos hany, List.eraseP_append_right _ hnot]
  simp

/-- Toggling twice preserves the multiset of signing user ids, provided no
user id occurs twice (`eraseP` removes the unique match, the second toggle
re-appends a signature with the same user id). -/
theorem toggleSigs_twice_perm (sigs : List Signature) (u : User) (ts1 ts2 : String)
    (h : (sigs.map Signature.userId).Nodup) :
    ((toggleSigs (toggleSigs sigs u ts1) u ts2).map Signature.userId).Perm
      (sigs.map Signature.userId) := by
  by_cases hm : u.id ∈ sigs.map Signature.userId
  · obtain ⟨a, ha, hua⟩ := List.mem_map.mp hm
    have hpa : (fun s => decide (s.userId = u.id)) a = true := by simpa using hua
    obtain ⟨b, l₁, l₂, hl₁, hpb, hsplit, herase⟩ :=
      List.exists_of_eraseP (p := fun s => decide (s.userId = u.id)) ha hpa
    have hany : sigs.any (fun s => s.userId = u.id) = true := by
      simp only [List.any_eq_true]
      exact ⟨a, ha, hpa⟩
    have h1 : toggleSigs sigs u ts1 = l₁ ++ l₂ := by
      rw [toggleSigs_eq, if_pos hany, herase]
    have hub : b.userId = u.id := by simpa using hpb
    have hmapsplit : sigs.map Signature.userId =
        l₁.map Signature.userId ++ b.userId :: l₂.map Signature.userId := by
      rw [hsplit]; simp
    have hnotmem : u.id ∉ (l₁ ++ l₂).map Signature.userId := by
      rw [hmapsplit] at h
      have h' := (List.nodup_middle).mp (by simpa using h)
      rw [hub] at h'
      intro hc
      exact (List.nodup_cons.mp h').1 (by simpa using hc)
    have h2 : toggleSigs (l₁ ++ l₂) u ts2 = (l₁ ++ l₂) ++ [⟨u.id, u.name, ts2⟩] :=
      toggleSigs_of_not_mem _ _ _ hnotmem
    rw [h1, h2, hmapsplit, hub]
    simp only [List.map_append, List.map_cons, List.map_nil]
    exact (List.perm_append_singleton _ _).trans List.perm_middle.symm
  · rw [toggleSigs_twice_of_not_mem sigs u ts1 ts2 hm]

/-- The toggle preserves uniqueness of signing user ids. -/
theorem toggleSigs_nodup (sigs : List Signature) (u : User) (ts : String)
    (h : (sigs.map Signature.userId).Nodup) :
    ((toggleSigs sigs u ts).map Signature.userId).Nodup := by
  rw [toggleSigs_eq]
  split
  · exact h.sublist ((List.eraseP_sublist _).map _)
  · rename_i hany
    have hnot : u.id ∉ sigs.map Signature.userId := by
      intro hc
      obtain ⟨s, hs, hus⟩ := List.mem_map.mp hc
      exact hany (List.any_eq_true.mpr ⟨s, hs, by simpa using hus⟩)
    simp only [List.map_append, List.map_cons, List.map_nil]
    refine List.Nodup.append h (List.nodup_singleton _) ?_
    intro a ha hb
    rw [List.mem_singleton] at hb
    exact hnot (hb ▸ ha)

/-- A map whose image is pointwise related to the original list. -/
theorem forall₂_map_self {α : Type} {R : α → α → Prop} {f : α → α} :
    ∀ {l : List α}, (∀ a ∈ l, R (f a) a) → List.Forall₂ R (l.map f) l := by
  intro l h
  induction l with
  | nil => exact List.Forall₂.nil
  | cons a l ih =>
    exact List.Forall₂.cons (h a (List.mem_cons_self a l))
      (ih fun b hb => h b (List.mem_cons_of_mem a hb))

/-- A map that fixes every element of a list is the identity on it. -/
theorem map_eq_self_of_fixes {α : Type} {f : α → α} :
    ∀ {l : List α}, (∀ a ∈ l, f a = a) → l.map f = l := by
  intro l h
  induction l with
  | nil => rfl
  | cons a l ih =>
    rw [List.map_cons, h a (List.mem_cons_self a l),
      ih fun b hb => h b (List.mem_cons_of_mem a hb)]

/-- Toggling the same proposal twice composes the per-proposal toggles. -/
theorem toggleSignature_twice (ps : List Proposal) (pid : Nat) (u : User) (ts1 ts2 : String) :
    toggleSignature (toggleSignature ps pid u ts1) pid u ts2 =
      ps.map (fun p =>
        if p.id = pid then
          { p with signatures := toggleSigs (toggleSigs p.signatures u ts1) u ts2 }
        else p) := by
  unfold toggleSignature
  rw [List.map_map]
  congr 1
  funext p
  by_cases h : p.id = pid
  · simp [Function.comp, h]
  · simp [Function.comp, h]

/-- Every element of a `Nat` list is at most the `foldr max 0` of the list. -/
theorem le_foldr_max : ∀ (l : List Nat), ∀ x ∈ l, x ≤ l.foldr max 0 := by
  intro l
  induction l with
  | nil => intro x hx; cases hx
  | cons a l ih =>
    intro x hx
    rcases List.mem_cons.mp hx with h | h
    · rw [h, List.foldr_cons]; exact Nat.le_max_left _ _
    · exact Nat.le_trans (ih x h) (by rw [List.foldr_cons]; exact Nat.le_max_right _ _)

/-- On a non-empty `Nat` list, `foldr max 0` is one of the elements. -/
theorem foldr_max_mem : ∀ (l : List Nat), l ≠ [] → l.foldr max 0 ∈ l := by
  intro l
  induction l with
  | nil => intro h; exact absurd rfl h
  | cons a l ih =>
    intro _
    cases l with
    | nil => simp
    | cons b m =>
      rcases max_choice a ((b :: m).foldr max 0) with h | h
      · rw [List.foldr_cons, h]; exact List.mem_cons_self _ _
      · rw [List.foldr_cons, h]
        exact List.mem_cons_of_mem _ (ih (by simp))

/-- A gate state whose approval flag is down keeps it down, and its proposal
collection unchanged, under any edit, submit attempt, or check start. -/
theorem applyGateOp_not_approved (s : AppState) (op : GateOp) (h : s.isAIApproved = false) :
    (applyGateOp s op).isAIApproved = false ∧ (applyGateOp s op).proposals = s.proposals := by
  cases op with
  | edit f v => exact ⟨rfl, rfl⟩
  | submit now =>
    constructor <;> simp [applyGateOp, handlePostSubmit, h]
  | check =>
    constructor <;> · simp only [applyGateOp, handleAIAnalyzeStart]; split <;> simp [h]

/-- Iterated form of `applyGateOp_not_approved`. -/
theorem runGateOps_not_approved (ops : List GateOp) : ∀ (s : AppState),
    s.isAIApproved = false →
    (runGateOps s ops).isAIApproved = false ∧ (runGateOps s ops).proposals = s.proposals := by
  induction ops with
  | nil => intro s h; exact ⟨h, rfl⟩
  | cons op rest ih =>
    intro s h
    obtain ⟨h1, h2⟩ := applyGateOp_not_approved s op h
    obtain ⟨h3, h4⟩ := ih (applyGateOp s op) h1
    exact ⟨h3, by rw [runGateOps, h4, h2]⟩

/-- The descending comparator on a `Nat` key is transitive. -/
theorem keyLe_trans {α : Type} (k : α → Nat) : ∀ (a b c : α),
    decide (k b ≤ k a) = true → decide (k c ≤ k b) = true → decide (k c ≤ k a) = true := by
  intro a b c hab hbc
  simp only [decide_eq_true_eq] at *
  omega

/-- The descending comparator on a `Nat` key is total. -/
theorem keyLe_total {α : Type} (k : α → Nat) : ∀ (a b : α),
    (decide (k b ≤ k a) || decide (k a ≤ k b)) = true := by
  intro a b
  simp only [Bool.or_eq_true, decide_eq_true_eq]
  omega

/-- Sorting by a descending `Nat` key yields a list that is pairwise
non-increasing in the key. -/
theorem mergeSort_key_pairwise {α : Type} (k : α → Nat) (l : List α) :
    (l.mergeSort (fun a b => decide (k b ≤ k a))).Pairwise (fun a b => k b ≤ k a) := by
  have h := List.sorted_mergeSort (keyLe_trans k) (keyLe_total k) l
  exact h.imp (by intro a b hab; simpa using hab)

/-- Stability of the descending-key sort: the elements with any fixed key
value keep their original relative order (their filtered subsequence is
unchanged). -/
theorem mergeSort_key_filter {α : Type} (k : α → Nat) (l : List α) (n : Nat) :
    (l.mergeSort (fun a b => decide (k b ≤ k a))).filter (fun p => k p = n) =
      l.filter (fun p => k p = n) := by
  have hmemf : ∀ p ∈ l.filter (fun p => decide (k p = n)), k p = n := by
    intro p hp
    simpa using (List.mem_filter.mp hp).2
  have hpair : (l.filter (fun p => decide (k p = n))).Pairwise
      (fun a b => decide (k b ≤ k a) = true) := by
    apply List.pairwise_of_forall_mem_list
    intro a ha b hb
    simp [hmemf a ha, hmemf b hb]
  have hsub : List.Sublist (l.filter (fun p => decide (k p = n)))
      (l.mergeSort (fun a b => decide (k b ≤ k a))) :=
    List.sublist_mergeSort (keyLe_trans k) (keyLe_total k) hpair (List.filter_sublist l)
  have hsub2 : List.Sublist (l.filter (fun p => decide (k p = n)))
      ((l.mergeSort (fun a b => decide (k b ≤ k a))).filter (fun p => decide (k p = n))) := by
    have h1 := hsub.filter (fun p => decide (k p = n))
    rwa [List.filter_eq_self.mpr (by intro a ha; simpa using hmemf a ha)] at h1
  have hperm : ((l.mergeSort (fun a b => decide (k b ≤ k a))).filter
      (fun p => decide (k p = n))).Perm (l.filter (fun p => decide (k p = n))) :=
    (List.mergeSort_perm l _).filter _
  exact (hsub2.eq_of_length hperm.length_eq.symm).symm

/-- Toggling a proposal id that is not in the collection changes nothing. -/
theorem toggleSignature_absent (ps : List Proposal) (pid : Nat) (u : User) (ts : String)
    (h : pid ∉ ps.map Proposal.id) : toggleSignature ps pid u ts = ps := by
  unfold toggleSignature
  apply map_eq_self_of_fixes
  intro p hp
  have hne : p.id ≠ pid := fun hc => h (List.mem_map.mpr ⟨p, hp, hc⟩)
  simp [hne]

/-- Setting the status of a proposal id that is not in the collection
changes nothing. -/
theorem updateAdminStatus_absent (ps : List Proposal) (pid : Nat) (st resp : String)
    (h : pid ∉ ps.map Proposal.id) : updateAdminStatus ps pid st resp = ps := by
  unfold updateAdminStatus
  apply map_eq_self_of_fixes
  intro p hp
  have hne : p.id ≠ pid := fun hc => h (List.mem_map.mpr ⟨p, hp, hc⟩)
  simp [hne]

/-! ### Claims -/

/-- C1, counterexample: toggling twice is not an involution on the
endorsement list as stated.  In `samplePs` the proposal is endorsed by
`alice` (first) and `bob` (second); toggling `alice` twice removes her entry
and re-appends it at the end, so the list comes back reordered even though
the re-appended signature carries the same name and timestamp. -/
theorem c1_toggle_counterexample :
    toggleSignature (toggleSignature samplePs 1 sampleUserA "t0") 1 sampleUserA "t0" ≠
      samplePs := by
  decide

/-- C1, amended: on a collection whose proposals have no duplicate signing
user ids, toggling the same identity twice on the same proposal id restores,
for every proposal, the id and the multiset of signing user ids; and for
every proposal on which the identity had not signed (in particular the
targeted proposal when the identity was not an endorser), the proposal is
restored exactly. -/
theorem c1_toggle_twice_amended (ps : List Proposal) (pid : Nat) (u : User)
    (ts1 ts2 : String) (hinv : SigInvariant ps) :
    List.Forall₂
      (fun q p => q.id = p.id ∧
        ((q.signatures.map Signature.userId).Perm (p.signatures.map Signature.userId)) ∧
        (u.id ∉ p.signatures.map Signature.userId → q = p))
      (toggleSignature (toggleSignature ps pid u ts1) pid u ts2) ps := by
  rw [toggleSignature_twice]
  apply forall₂_map_self
  intro p hp
  by_cases h : p.id = pid
  · rw [if_pos h]
    refine ⟨rfl, toggleSigs_twice_perm p.signatures u ts1 ts2 (hinv p hp), ?_⟩
    intro hnm
    rw [toggleSigs_twice_of_not_mem p.signatures u ts1 ts2 hnm]
  · simp [h]

/-- C1, witness for the amended theorem at the sample collection. -/
theorem c1_toggle_twice_amended_witness :
    SigInvariant samplePs ∧
    List.Forall₂
      (fun q p => q.id = p.id ∧
        ((q.signatures.map Signature.userId).Perm (p.signatures.map Signature.userId)) ∧
        (sampleUserA.id ∉ p.signatures.map Signature.userId → q = p))
      (toggleSignature (toggleSignature samplePs 1 sampleUserA "t0") 1 sampleUserA "t0")
      samplePs :=
  ⟨by unfold SigInvariant; decide,
    c1_toggle_twice_amended samplePs 1 sampleUserA "t0" "t0" (by unfold SigInvariant; decide)⟩

/-- C2: whenever the external moderation call fails (transport error, falsy
response text, or JSON parse failure), `analyzeProposal` returns the
fail-closed verdict: not approved, category `その他`, no tags, and a
non-empty advisory.  The embedding is a total function, so no exception
escapes. -/
theorem c2_classify_fails_closed (env : ModerationEnv) (title content : String)
    (hfail : (∃ e, env.call title content = .error e) ∨
      env.call title content = .ok none ∨
      (∃ t, env.call title content = .ok (some t) ∧ (t = "" ∨ env.parse t = none))) :
    analyzeProposal env title content = fallbackResult ∧
    (analyzeProposal env title content).isAppropriate = false ∧
    (analyzeProposal env title content).category = "その他" ∧
    (analyzeProposal env title content).tags = [] ∧
    ∃ a, (analyzeProposal env title content).advice = some a ∧ a ≠ "" := by
  have hfb : analyzeProposal env title content = fallbackResult := by
    rcases hfail with ⟨e, he⟩ | he | ⟨t, he, ht⟩
    · simp [analyzeProposal, he]
    · simp [analyzeProposal, he]
    · rcases ht with rfl | hp
      · simp [analyzeProposal, he]
      · by_cases hempty : t = ""
        · simp [analyzeProposal, he, hempty]
        · simp [analyzeProposal, he, hempty, hp]
  refine ⟨hfb, ?_, ?_, ?_, ?_⟩ <;> rw [hfb]
  · rfl
  · rfl
  · rfl
  · exact ⟨_, rfl, by decide⟩

/-- C2, witness: a transport-failing environment yields the fallback. -/
theorem c2_classify_fails_closed_witness :
    ((∃ e, sampleFailEnv.call "T" "C" = .error e) ∨
      sampleFailEnv.call "T" "C" = .ok none ∨
      (∃ t, sampleFailEnv.call "T" "C" = .ok (some t) ∧
        (t = "" ∨ sampleFailEnv.parse t = none))) ∧
    analyzeProposal sampleFailEnv "T" "C" = fallbackResult :=
  ⟨Or.inl ⟨"network error", rfl⟩,
    (c2_classify_fails_closed sampleFailEnv "T" "C" (Or.inl ⟨"network error", rfl⟩)).1⟩

/-- C3: on an approved draft, `handlePostSubmit` prepends a proposal whose
id is 1 on an empty collection, exceeds every existing id, equals some
existing id plus one on a non-empty collection (i.e. is max existing id +
1), and in particular is never an existing id. -/
theorem c3_create_fresh_id (s : AppState) (now : Nat) (h : s.isAIApproved = true) :
    (handlePostSubmit s now).proposals = newProposalOf s now :: s.proposals ∧
    (s.proposals = [] → (newProposalOf s now).id = 1) ∧
    (∀ q ∈ s.proposals, q.id < (newProposalOf s now).id) ∧
    (s.proposals ≠ [] → ∃ q ∈ s.proposals, (newProposalOf s now).id = q.id + 1) ∧
    (newProposalOf s now).id ∉ s.proposals.map Proposal.id := by
  refine ⟨by simp [handlePostSubmit, h], ?_, ?_, ?_, ?_⟩
  · intro he
    simp [newProposalOf, newId, he]
  · intro q hq
    have hlen : s.proposals.length > 0 :=
      List.length_pos.mpr (List.ne_nil_of_mem hq)
    have hle := le_foldr_max (s.proposals.map Proposal.id) q.id (List.mem_map_of_mem _ hq)
    simp only [newProposalOf, newId, if_pos hlen]
    omega
  · intro hne
    have hlen : s.proposals.length > 0 := List.length_pos.mpr hne
    have hmem := foldr_max_mem (s.proposals.map Proposal.id) (by simpa using hne)
    obtain ⟨q, hq, hid⟩ := List.mem_map.mp hmem
    refine ⟨q, hq, ?_⟩
    simp only [newProposalOf, newId, if_pos hlen, hid]
  · intro hc
    obtain ⟨q, hq, hid⟩ := List.mem_map.mp hc
    have hlen : s.proposals.length > 0 :=
      List.length_pos.mpr (List.ne_nil_of_mem hq)
    have hle := le_foldr_max (s.proposals.map Proposal.id) q.id (List.mem_map_of_mem _ hq)
    simp only [newProposalOf, newId, if_pos hlen] at hid
    omega

/-- C3, witness at a one-proposal collection with an approved draft. -/
theorem c3_create_fresh_id_witness :
    sampleApprovedState.isAIApproved = true ∧
    (handlePostSubmit sampleApprovedState 5).proposals =
      newProposalOf sampleApprovedState 5 :: sampleApprovedState.proposals ∧
    (newProposalOf sampleApprovedState 5).id ∉
      sampleApprovedState.proposals.map Proposal.id :=
  ⟨rfl, (c3_create_fresh_id sampleApprovedState 5 rfl).1,
    (c3_create_fresh_id sampleApprovedState 5 rfl).2.2.2.2⟩

/-- C4: editing any draft field while the gate holds an approved verdict
drops the approval flag, and under any further sequence of edits, submit
attempts and check starts (that is, until some check resolves anew), the
flag stays down and no proposal is ever created. -/
theorem c4_edit_invalidates_approval (s : AppState) (field : PostField) (v : String)
    (h : s.isAIApproved = true) :
    (handleInputChange s field v).isAIApproved = false ∧
    ∀ ops : List GateOp,
      (runGateOps (handleInputChange s field v) ops).isAIApproved = false ∧
      (runGateOps (handleInputChange s field v) ops).proposals = s.proposals := by
  refine ⟨rfl, fun ops => ?_⟩
  obtain ⟨h1, h2⟩ := runGateOps_not_approved ops (handleInputChange s field v) rfl
  exact ⟨h1, h2⟩

/-- C4, witness: after an edit, a submit attempt creates nothing. -/
theorem c4_edit_invalidates_approval_witness :
    sampleApprovedState.isAIApproved = true ∧
    (handleInputChange sampleApprovedState PostField.title "X").isAIApproved = false ∧
    (runGateOps (handleInputChange sampleApprovedState PostField.title "X")
      [GateOp.submit 9]).proposals = sampleApprovedState.proposals :=
  ⟨rfl, (c4_edit_invalidates_approval sampleApprovedState PostField.title "X" rfl).1,
    ((c4_edit_invalidates_approval sampleApprovedState PostField.title "X" rfl).2
      [GateOp.submit 9]).2⟩

/-- C5, counterexample: the gate does not compare the verdict's bound
`(title, content)` with the live draft.  Starting a check binds
`("T", "C")`; the content is then edited to `"C2"` while the check is in
flight; when the approving verdict resolves, the gate still sets the
approval flag, and a subsequent confirm-submit creates a proposal — the
stale verdict is accepted even though its bound pair differs from the live
draft. -/
theorem c5_stale_verdict_counterexample :
    (handleAIAnalyzeStart sampleComposingState).pending = some ("T", "C") ∧
    staleVerdictState.pending = some ("T", "C") ∧
    (staleVerdictState.postForm.title, staleVerdictState.postForm.content) ≠ ("T", "C") ∧
    (handleAIAnalyzeResolve staleVerdictState sampleOkResult).isAIApproved = true ∧
    (handlePostSubmit (handleAIAnalyzeResolve staleVerdictState sampleOkResult) 3).proposals ≠
      (handleAIAnalyzeResolve staleVerdictState sampleOkResult).proposals := by
  refine ⟨rfl, rfl, by decide, rfl, by decide⟩

/-- C5, amended: at resolution the gate accepts the verdict's approval flag
unconditionally — even when the pair the in-flight check was bound to
differs from the live draft, an approving verdict raises the flag and
submission then creates a proposal; the only safeguard is that each edit
clears the flag before the check resolves (see the C4 theorem). -/
theorem c5_resolve_ignores_binding (s : AppState) (result : AIAnalysisResult) (now : Nat)
    (hmismatch : s.pending ≠ some (s.postForm.title, s.postForm.content))
    (happ : result.isAppropriate = true) :
    (handleAIAnalyzeResolve s result).isAIApproved = true ∧
    (handlePostSubmit (handleAIAnalyzeResolve s result) now).proposals =
      newProposalOf (handleAIAnalyzeResolve s result) now ::
        (handleAIAnalyzeResolve s result).proposals := by
  constructor
  · simp [handleAIAnalyzeResolve, happ]
  · simp [handlePostSubmit, handleAIAnalyzeResolve, happ]

/-- C5, witness for the amended theorem on the stale-verdict trace. -/
theorem c5_resolve_ignores_binding_witness :
    staleVerdictState.pending ≠
      some (staleVerdictState.postForm.title, staleVerdictState.postForm.content) ∧
    sampleOkResult.isAppropriate = true ∧
    (handleAIAnalyzeResolve staleVerdictState sampleOkResult).isAIApproved = true :=
  ⟨by decide, rfl,
    (c5_resolve_ignores_binding staleVerdictState sampleOkResult 3 (by decide) rfl).1⟩

/-- C6: every reachable proposal collection satisfies the endorsement
uniqueness invariant — no proposal carries two signatures with the same
user id — because the empty and seed collections satisfy it and create,
status update and toggle preserve it. -/
theorem c6_reachable_sig_unique (ps : List Proposal) (h : Reachable ps) :
    SigInvariant ps := by
  induction h with
  | empty => intro p hp; cases hp
  | seeds t1 t2 t3 sigTs =>
    intro p hp
    simp only [seedProposals, List.mem_cons, List.not_mem_nil, or_false] at hp
    rcases hp with rfl | rfl | rfl
    · simp
    · simp
    · simp
  | create s now hps ih =>
    intro p hp
    unfold handlePostSubmit at hp
    split at hp
    · simp only [List.mem_cons] at hp
      rcases hp with rfl | hmem
      · simp [newProposalOf]
      · exact ih p hmem
    · exact ih p hp
  | toggle ps pid u ts hps ih =>
    intro p hp
    simp only [toggleSignature, List.mem_map] at hp
    obtain ⟨q, hq, rfl⟩ := hp
    by_cases hid : q.id = pid
    · simpa [hid] using toggleSigs_nodup q.signatures u ts (ih q hq)
    · simpa [hid] using ih q hq
  | setStatus ps pid st resp hps ih =>
    intro p hp
    simp only [updateAdminStatus, List.mem_map] at hp
    obtain ⟨q, hq, rfl⟩ := hp
    by_cases hid : q.id = pid
    · simpa [hid] using ih q hq
    · simpa [hid] using ih q hq

/-- C6, witness: a concrete reachable collection (seeds, then a toggle)
satisfies the invariant. -/
theorem c6_reachable_sig_unique_witness :
    SigInvariant (toggleSignature (seedProposals 1 2 3 "t") 2 sampleUserA "t9") :=
  c6_reachable_sig_unique _
    (Reachable.toggle _ 2 sampleUserA "t9" (Reachable.seeds 1 2 3 "t"))

/-- C7: `updateAdminStatus` with an id absent from the collection returns
the collection unchanged (and, being a total function, raises nothing). -/
theorem c7_setStatus_absent_noop (ps : List Proposal) (pid : Nat) (st resp : String)
    (h : pid ∉ ps.map Proposal.id) :
    updateAdminStatus ps pid st resp = ps :=
  updateAdminStatus_absent ps pid st resp h

/-- C7, witness: the spec scenario — status update for missing id 5. -/
theorem c7_setStatus_absent_noop_witness :
    (5 ∉ samplePs.map Proposal.id) ∧
    updateAdminStatus samplePs 5 "先生と調整中" "in discussion" = samplePs :=
  ⟨by decide, c7_setStatus_absent_noop samplePs 5 "先生と調整中" "in discussion" (by decide)⟩

/-- C8: sorting by endorsement count yields a list non-increasing in
endorsement count, sorting by recency yields a list non-increasing in
creation timestamp, and both sorts are stable: for every key value, the
subsequence of elements with that key is exactly as in the input, so equal
elements keep their original relative order. -/
theorem c8_sort_sorted_stable (ps : List Proposal) :
    (sortProposals SortOrder.signatures ps).Pairwise
      (fun a b => b.signatures.length ≤ a.signatures.length) ∧
    (sortProposals SortOrder.newest ps).Pairwise
      (fun a b => b.timestamp ≤ a.timestamp) ∧
    (∀ n, (sortProposals SortOrder.signatures ps).filter
        (fun p => p.signatures.length = n) =
      ps.filter (fun p => p.signatures.length = n)) ∧
    (∀ t, (sortProposals SortOrder.newest ps).filter (fun p => p.timestamp = t) =
      ps.filter (fun p => p.timestamp = t)) := by
  refine ⟨?_, ?_, ?_, ?_⟩
  · exact mergeSort_key_pairwise (fun p => p.signatures.length) ps
  · exact mergeSort_key_pairwise (fun p => p.timestamp) ps
  · intro n
    exact mergeSort_key_filter (fun p => p.signatures.length) ps n
  · intro t
    exact mergeSort_key_filter (fun p => p.timestamp) ps t

/-- C9: `trendingTags` is non-increasing in count, returns at most five
entries, and every entry is one of the accumulated (token, count) pairs; on
the spec example contents, in either scan order, the first entry is
`("#a", 3)` and the remaining entries have count 1; and it is empty when no
content contains a tag token. -/
theorem c9_trendingTags_spec :
    (∀ ps : List Proposal,
      (trendingTags ps).Pairwise (fun a b => b.2 ≤ a.2) ∧
      (trendingTags ps).length ≤ 5 ∧
      ∀ e ∈ trendingTags ps, e ∈ tagCounts ps) ∧
    (∀ p1 p2 : Proposal, p1.content = "#a #a #b" → p2.content = "#a #c" →
      trendingTags [p1, p2] = [("#a", 3), ("#b", 1), ("#c", 1)] ∧
      trendingTags [p2, p1] = [("#a", 3), ("#c", 1), ("#b", 1)]) ∧
    (∀ ps : List Proposal, (∀ p ∈ ps, extractTags p.content = []) →
      trendingTags ps = []) := by
  refine ⟨?_, ?_, ?_⟩
  · intro ps
    refine ⟨?_, ?_, ?_⟩
    · exact ((mergeSort_key_pairwise (fun e : String × Nat => e.2)
        (tagCounts ps)).sublist (List.take_sublist 5 _))
    · exact List.length_take_le 5 _
    · intro e he
      exact List.mem_mergeSort.mp (List.take_subset 5 _ he)
  · intro p1 p2 h1 h2
    have hc1 : tagCounts [p1, p2] = [("#a", 3), ("#b", 1), ("#c", 1)] := by
      show (extractTags p2.content).foldl bump ((extractTags p1.content).foldl bump []) = _
      rw [h1, h2]
      decide
    have hc2 : tagCounts [p2, p1] = [("#a", 3), ("#c", 1), ("#b", 1)] := by
      show (extractTags p1.content).foldl bump ((extractTags p2.content).foldl bump []) = _
      rw [h1, h2]
      decide
    constructor
    · unfold trendingTags
      rw [hc1, List.mergeSort_of_sorted (by decide)]
      decide
    · unfold trendingTags
      rw [hc2, List.mergeSort_of_sorted (by decide)]
      decide
  · intro ps hps
    have haux : ∀ (qs : List Proposal), (∀ p ∈ qs, extractTags p.content = []) →
        ∀ acc, qs.foldl (fun acc p => (extractTags p.content).foldl bump acc) acc = acc := by
      intro qs
      induction qs with
      | nil => intro _ acc; rfl
      | cons p rest ih =>
        intro hqs acc
        rw [List.foldl_cons]
        have h0 : extractTags p.content = [] := hqs p (List.mem_cons_self p rest)
        rw [h0, List.foldl_nil]
        exact ih (fun q hq => hqs q (List.mem_cons_of_mem p hq)) acc
    have hcounts : tagCounts ps = [] := haux ps hps []
    unfold trendingTags
    rw [hcounts, List.mergeSort_nil]
    rfl

/-- C9, witness at the two sample tagged proposals and the empty
collection. -/
theorem c9_trendingTags_spec_witness :
    trendingTags [sampleTagged1, sampleTagged2] = [("#a", 3), ("#b", 1), ("#c", 1)] ∧
    trendingTags [] = [] :=
  ⟨(c9_trendingTags_spec.2.1 sampleTagged1 sampleTagged2 rfl rfl).1,
    c9_trendingTags_spec.2.2 [] (fun p hp => absurd hp (List.not_mem_nil p))⟩

/-- C10, frame conditions: a toggle touches only the signatures of the
targeted proposal and a status update touches only the status and the
administrator response of the targeted proposal; every proposal with a
different id is unchanged, and with an absent id both operations are
no-ops (the edge case the spec states only for the status update). -/
theorem c10_frame_conditions (ps : List Proposal) (pid : Nat) (u : User)
    (ts st resp : String) :
    List.Forall₂
      (fun q p => q.id = p.id ∧ q.title = p.title ∧ q.content = p.content ∧
        q.category = p.category ∧ q.status = p.status ∧
        q.adminResponse = p.adminResponse ∧ q.timestamp = p.timestamp ∧
        (p.id ≠ pid → q = p))
      (toggleSignature ps pid u ts) ps ∧
    List.Forall₂
      (fun q p => q.id = p.id ∧ q.title = p.title ∧ q.content = p.content ∧
        q.category = p.category ∧ q.signatures = p.signatures ∧
        q.timestamp = p.timestamp ∧ (p.id ≠ pid → q = p))
      (updateAdminStatus ps pid st resp) ps ∧
    (pid ∉ ps.map Proposal.id →
      toggleSignature ps pid u ts = ps ∧ updateAdminStatus ps pid st resp = ps) := by
  refine ⟨?_, ?_, ?_⟩
  · unfold toggleSignature
    apply forall₂_map_self
    intro p hp
    by_cases h : p.id = pid
    · rw [if_pos h]
      exact ⟨rfl, rfl, rfl, rfl, rfl, rfl, rfl, fun hc => absurd h hc⟩
    · rw [if_neg h]
      exact ⟨rfl, rfl, rfl, rfl, rfl, rfl, rfl, fun _ => rfl⟩
  · unfold updateAdminStatus
    apply forall₂_map_self
    intro p hp
    by_cases h : p.id = pid
    · rw [if_pos h]
      exact ⟨rfl, rfl, rfl, rfl, rfl, rfl, fun hc => absurd h hc⟩
    · rw [if_neg h]
      exact ⟨rfl, rfl, rfl, rfl, rfl, rfl, fun _ => rfl⟩
  · intro h
    exact ⟨toggleSignature_absent ps pid u ts h, updateAdminStatus_absent ps pid st resp h⟩

/-- C10, witness: both operations with the absent id 2 leave the sample
collection unchanged. -/
theorem c10_frame_conditions_witness :
    (2 ∉ samplePs.map Proposal.id) ∧
    toggleSignature samplePs 2 sampleUserA "t5" = samplePs ∧
    updateAdminStatus samplePs 2 "検討中" "r" = samplePs := by
  have h := (c10_frame_conditions samplePs 2 sampleUserA "t5" "検討中" "r").2.2 (by decide)
  exact ⟨by decide, h.1, h.2⟩

end ProPoSal
